import Mathlib

/-!
Verification of the auction-data-scraper extraction and filtering pipeline.

This file gives a shallow embedding, in Lean 4, of the pure algorithmic core of
the repository (src/scraper.py, src/comprehensive_debug.py, src/email_sender.py):
row extraction with its four-tier title/URL fallback chain, URL normalization,
the criteria filter, deduplication, the weekly date-window computation, the
encoded search-URL builder, and the grouping/sorting handed to the digest
formatter.  Selenium element handles are modelled by a `Row`/`Cell` structure
exposing exactly the queries the code performs; `get_attribute` results that
are Python `None` are modelled as the empty string, which is behaviourally
identical everywhere the code consumes them (only truthiness tests and
substring tests guarded by truthiness are applied).
-/

namespace AuctionScraper

/-- Python `needle in hay` substring test on strings. -/
def pyIn (needle hay : String) : Bool := decide (needle.data <:+: hay.data)

/-- Python whitespace (ASCII members, which is exact for the scraped strings
involved). -/
def pyWs (c : Char) : Bool :=
  c = ' ' ∨ c = '\t' ∨ c = '\n' ∨ c = '\r' ∨ c = '\x0b' ∨ c = '\x0c'

/-- Python `s.strip()`: whitespace trimming at both ends. -/
def strip (s : String) : String :=
  String.mk ((s.data.dropWhile pyWs).reverse.dropWhile pyWs).reverse

/-- Python `s.lower()` (ASCII case folding, exact for the configured and
scraped strings involved). -/
def lowerStr (s : String) : String := String.mk (s.data.map Char.toLower)

/-- Python `s.startswith(p)`, stated over the character lists. -/
def sStarts (s p : String) : Bool := s.data.take p.data.length = p.data

/-- A hyperlink (`<a>`) element: its visible text and its `href` attribute
(`None` modelled as `""`). -/
structure Link where
  text : String
  href : String
deriving Repr, DecidableEq

/-- A descendant element matched by the strategy-2 XPath query
`.//*[@onclick or @data-href or @data-url or contains(@class, ...)]`,
carrying the four attributes the code reads from it. -/
structure Clickable where
  onclick : String
  dataHref : String
  dataUrl : String
  href : String
deriving Repr, DecidableEq

/-- One `<td>` cell: its text, the anchors inside it (in document order, so
`find_element` returns the head), the clickable descendants matched by the
strategy-2 query, and the `src` of the first `<img>` inside it (`""` if none). -/
structure Cell where
  text : String
  anchors : List Link
  clickables : List Clickable
  imgSrc : String
deriving Repr, DecidableEq

/-- One table row: its `<td>` cells and all anchors found anywhere in the row
(the `row_element.find_elements(By.TAG_NAME, 'a')` query of strategy 3). -/
structure Row where
  cells : List Cell
  rowAnchors : List Link
deriving Repr, DecidableEq

/-- The auction record dictionary built by `extract_auction_from_row`.
The `image_path` entry is the result of the external image downloader
(network I/O) and is omitted; the debug variant's `row_number` diagnostic
entry is likewise omitted.  All other entries are modelled. -/
structure AuctionRecord where
  title : String
  url : String
  currentBid : String
  endTime : String
  location : String
  condition : String
  imageUrl : String
  searchTerm : String
deriving Repr, DecidableEq

/-- The Python chain
`elem.get_attribute('onclick') or elem.get_attribute('data-href') or
 elem.get_attribute('data-url') or elem.get_attribute('href')`:
first truthy value, else the last value. -/
def firstTruthy (e : Clickable) : String :=
  if e.onclick ≠ "" then e.onclick
  else if e.dataHref ≠ "" then e.dataHref
  else if e.dataUrl ≠ "" then e.dataUrl
  else e.href

/-- The strategy-3 loop body: the first link in the row whose href is truthy
and contains `itemDetails` or `auction`. -/
def findDetailLink : List Link → Option Link
  | [] => none
  | l :: ls =>
    if l.href ≠ "" ∧ (pyIn "itemDetails" l.href ∨ pyIn "auction" l.href) then some l
    else findDetailLink ls

/-- Strategy 3 (identical text in scraper.py lines 164-185 and
comprehensive_debug.py lines 154-176): scan all links in the row for an
auction-detail link, taking its href and, when no title is set yet, its
stripped text or else the stripped description-cell text; when no detail link
matches, fall back to the first link's href.  `title` is the title already
established when the strategy starts (always `""` in scraper.py). -/
def strategy3 (anchors : List Link) (cell1Text title : String) : String × String :=
  match findDetailLink anchors with
  | some l =>
    (if title = "" then (if strip l.text ≠ "" then strip l.text else strip cell1Text)
     else title, l.href)
  | none =>
    match anchors with
    | [] => (title, "")
    | first :: _ => (title, first.href)

/-- Strategy 4 (both variants): when no title was established, use the stripped
description-cell text. -/
def applyS4 (p : String × String) (cell1Text : String) : String × String :=
  (if p.1 = "" then strip cell1Text else p.1, p.2)

/-- Title/URL extraction of `BidFTAScraper.extract_auction_from_row`
(scraper.py lines 139-190).  Strategy 1 fires when the description cell
contains any anchor; otherwise strategy 2 fires when the cell contains any
clickable descendant; strategy 3 runs only in the remaining case (in the
source it sits in the `except` handler reached when strategy 2 found no
elements and re-raised); strategy 4 tops up an empty title afterwards. -/
def titleUrlScraper (row : Row) (c1 : Cell) : String × String :=
  match c1.anchors with
  | link :: _ => (strip link.text, link.href)
  | [] =>
    match c1.clickables with
    | elem :: _ => applyS4 (strip c1.text, firstTruthy elem) c1.text
    | [] => applyS4 (strategy3 row.rowAnchors c1.text "") c1.text

/-- Title/URL extraction of
`ComprehensiveDebugger.extract_auction_from_row_comprehensive`
(comprehensive_debug.py lines 121-181).  Identical to the scraper variant
except that strategy 3 is guarded by `if not auction_url:`, so it also runs
when strategy 2 found a clickable element whose four attributes were all
empty. -/
def titleUrlDebug (row : Row) (c1 : Cell) : String × String :=
  match c1.anchors with
  | link :: _ => (strip link.text, link.href)
  | [] =>
    match c1.clickables with
    | elem :: _ =>
      if firstTruthy elem = "" then
        applyS4 (strategy3 row.rowAnchors c1.text (strip c1.text)) c1.text
      else applyS4 (strip c1.text, firstTruthy elem) c1.text
    | [] => applyS4 (strategy3 row.rowAnchors c1.text "") c1.text

/-- A character allowed in the body of the regex `(https?://[^\s\x27"]+)`
(Python `\s` restricted to its ASCII members, which is exact for the
attribute strings involved). -/
def urlChar (c : Char) : Bool :=
  c ≠ ' ' ∧ c ≠ '\t' ∧ c ≠ '\n' ∧ c ≠ '\r' ∧ c ≠ '\x0b' ∧ c ≠ '\x0c' ∧
  c ≠ '\'' ∧ c ≠ '\"'

/-- Try to match `https?://[^\s\x27"]+` at the start of the character list. -/
def httpMatchAt (cs : List Char) : Option String :=
  if cs.take 8 = "https://".data then
    let body := (cs.drop 8).takeWhile urlChar
    if body.isEmpty then none else some (String.mk ("https://".data ++ body))
  else if cs.take 7 = "http://".data then
    let body := (cs.drop 7).takeWhile urlChar
    if body.isEmpty then none else some (String.mk ("http://".data ++ body))
  else none

/-- `re.search` for the pattern above: leftmost match. -/
def findHttpMatch : List Char → Option String
  | [] => none
  | c :: cs =>
    match httpMatchAt (c :: cs) with
    | some m => some m
    | none => findHttpMatch cs

/-- The JavaScript-URL cleanup step (scraper.py lines 194-200): when the raw
candidate mentions `javascript:` or `onclick`, replace it by the first
embedded absolute HTTP(S) URL if one is found. -/
def jsClean (u : String) : String :=
  if pyIn "javascript:" u ∨ pyIn "onclick" u then
    match findHttpMatch u.data with
    | some m => m
    | none => u
  else u

/-- The make-absolute step (scraper.py lines 202-210): a candidate that does
not start with `http` is prefixed with the site origin (leading slash), with
the scheme (bare known host), or with origin plus slash (anything else). -/
def makeAbsolute (u : String) : String :=
  if u ≠ "" ∧ ¬ sStarts u "http" then
    if sStarts u "/" then "https://www.bidft.auction" ++ u
    else if sStarts u "www.bidfta.com" then "https://" ++ u
    else "https://www.bidft.auction/" ++ u
  else u

/-- Full URL normalization (scraper.py lines 192-210, identical in
comprehensive_debug.py lines 183-203): applied only to a truthy candidate. -/
def normalizeUrl (u : String) : String :=
  if u = "" then "" else makeAbsolute (jsClean u)

/-- `urllib.parse.urljoin` against the fixed base `https://www.bidft.auction`
(no path component), covering the scheme-relative, absolute-path and
relative-path cases that arise for image `src` attributes. -/
def urljoinBase (u : String) : String :=
  if sStarts u "//" then "https:" ++ u
  else if sStarts u "/" then "https://www.bidft.auction" ++ u
  else "https://www.bidft.auction/" ++ u

/-- Image URL extraction from cell 0 (scraper.py lines 212-220). -/
def imageUrlOf (c0 : Cell) : String :=
  if c0.imgSrc ≠ "" ∧ ¬ sStarts c0.imgSrc "http" then urljoinBase c0.imgSrc
  else c0.imgSrc

/-- `BidFTAScraper.extract_auction_from_row` (scraper.py lines 130-258):
`None` on rows with fewer than 7 cells, otherwise the record assembled from
the title/URL chain, URL normalization and the fixed column positions
(condition 3, location 4, end time 5, price 6). -/
def extract_auction_from_row (row : Row) (searchTerm : String) : Option AuctionRecord :=
  match row.cells with
  | c0 :: c1 :: _c2 :: c3 :: c4 :: c5 :: c6 :: _ =>
    some { title := (titleUrlScraper row c1).1
           url := normalizeUrl (titleUrlScraper row c1).2
           currentBid := strip c6.text
           endTime := strip c5.text
           location := strip c4.text
           condition := strip c3.text
           imageUrl := imageUrlOf c0
           searchTerm := searchTerm }
  | _ => none

/-- `ComprehensiveDebugger.extract_auction_from_row_comprehensive`
(comprehensive_debug.py lines 111-245), which differs from the scraper
variant only in the strategy-3 trigger inside the title/URL chain. -/
def extract_auction_from_row_comprehensive (row : Row) (searchTerm : String) :
    Option AuctionRecord :=
  match row.cells with
  | c0 :: c1 :: _c2 :: c3 :: c4 :: c5 :: c6 :: _ =>
    some { title := (titleUrlDebug row c1).1
           url := normalizeUrl (titleUrlDebug row c1).2
           currentBid := strip c6.text
           endTime := strip c5.text
           location := strip c4.text
           condition := strip c3.text
           imageUrl := imageUrlOf c0
           searchTerm := searchTerm }
  | _ => none

/-! ### Criteria filter (scraper.py lines 319-348) -/

/-- Allowed locations from the configuration template (config.example.py,
`CINCINNATI_LOCATIONS`).  The live config.py is not committed; the template
is the committed source of the configured values. -/
def CINCINNATI_LOCATIONS : List String :=
  ["Cincinnati - West Seymour Ave",
   "Cincinnati - West Seymour Ave.",
   "Springdale - Commons Drive",
   "Cincinnati - School Road",
   "Cincinnati - Colerain Ave",
   "Cincinnati - Colerain Ave.",
   "Cincinnati - Waycross Rd CWY"]

/-- Allowed conditions from the configuration template
(config.example.py, `FILTERS['condition']`). -/
def FILTERS_condition : List String := ["Appears New", "Brand New"]

/-- `BidFTAScraper.meets_criteria`, parametrized by the two configured
allow-lists (the source reads them from the global config module). -/
def meets_criteria_with (locs conds : List String) (a : AuctionRecord) : Bool :=
  if a.title = "" ∨ a.location = "" then false
  else if ¬ locs.any (fun c => pyIn (lowerStr c) (lowerStr a.location)) then false
  else if ¬ conds.any (fun c => pyIn (lowerStr c) (lowerStr a.condition)) then false
  else true

/-- `BidFTAScraper.meets_criteria` with the committed configuration values. -/
def meets_criteria (a : AuctionRecord) : Bool :=
  meets_criteria_with CINCINNATI_LOCATIONS FILTERS_condition a

/-! ### Deduplication (scraper.py lines 350-374) -/

/-- The fallback dedup key: `auction.get('title', '').lower().strip()`. -/
def normTitle (a : AuctionRecord) : String := strip (lowerStr a.title)

/-- The loop of `BidFTAScraper.remove_duplicates`, carrying the `seen_urls`
and `seen_titles` sets (modelled as lists, membership being all that is
used).  A record is kept when its url is truthy and unseen, or when its url
is falsy and its normalized title is truthy and unseen; all other records
are dropped. -/
def removeDupGo : List String → List String → List AuctionRecord → List AuctionRecord
  | _, _, [] => []
  | seenU, seenT, a :: rest =>
    if a.url ≠ "" ∧ a.url ∉ seenU then
      a :: removeDupGo (a.url :: seenU) seenT rest
    else if a.url = "" ∧ normTitle a ≠ "" ∧ normTitle a ∉ seenT then
      a :: removeDupGo seenU (normTitle a :: seenT) rest
    else removeDupGo seenU seenT rest

/-- `BidFTAScraper.remove_duplicates`. -/
def remove_duplicates (l : List AuctionRecord) : List AuctionRecord :=
  removeDupGo [] [] l

/-! ### Date window (scraper.py lines 68-85, comprehensive_debug.py 79-88)

Instants are modelled as day numbers (`Int`), day 0 being 1970-01-01, a
Thursday; Python `datetime.weekday()` (Monday = 0 .. Sunday = 6) of day `n`
is then `(n + 3) % 7`, and `timedelta(days = k)` is `+ k`.  The strftime
format `%Y-%m-%dT04:00:00.000Z` renders the date of the day number at the
fixed time of day 04:00; a rendered endpoint is therefore modelled as the
timestamp `day * 24 + 4` in hours. -/

/-- Python `datetime.weekday()`: Monday = 0 .. Sunday = 6. -/
def weekday (n : Int) : Int := (n + 3) % 7

/-- `days_since_sunday = (now.weekday() + 1) % 7` (Sunday becomes 0). -/
def days_since_sunday (n : Int) : Int := (weekday n + 1) % 7

/-- `sunday = now - timedelta(days=days_since_sunday)`. -/
def week_start (n : Int) : Int := n - days_since_sunday n

/-- `BidFTAScraper.get_week_date_range`: this Sunday to next Sunday
(start + 7 days). -/
def get_week_date_range (n : Int) : Int × Int := (week_start n, week_start n + 7)

/-- `ComprehensiveDebugger.get_week_date_range` in default mode: this Sunday
to Saturday (start + 6 days). -/
def get_week_date_range_debug (n : Int) : Int × Int := (week_start n, week_start n + 6)

/-- The timestamp, in hours, denoted by a rendered endpoint
`%Y-%m-%dT04:00:00.000Z` for a given day number. -/
def renderedTs (day : Int) : Int := day * 24 + 4

/-! ### Search-URL builder (scraper.py lines 87-112, identical in
comprehensive_debug.py lines 90-109)

`json.dumps(search_params, separators=(',', ':'))` serializes the dict in
insertion order with compact separators and `ensure_ascii=True` escaping;
the result is base64-encoded and appended as the single `searchSettings`
query parameter.  Both steps are implemented below. -/

/-- Lower-case hexadecimal digit, as used by Python json `\uXXXX` escapes. -/
def hexDigit (n : Nat) : Char := "0123456789abcdef".data.getD n '0'

/-- A `\uXXXX` escape for a code unit. -/
def uEscape (n : Nat) : List Char :=
  ['\\', 'u', hexDigit (n / 4096 % 16), hexDigit (n / 256 % 16),
   hexDigit (n / 16 % 16), hexDigit (n % 16)]

/-- Escaping of one character by `json.dumps` with its default
`ensure_ascii=True`: the two-character escapes for quote, backslash and the
common control characters, `\uXXXX` for other characters outside the
printable ASCII range, and surrogate pairs above the basic plane. -/
def jsonEscapeChar (c : Char) : List Char :=
  if c = '\"' then ['\\', '\"']
  else if c = '\\' then ['\\', '\\']
  else if c = '\n' then ['\\', 'n']
  else if c = '\r' then ['\\', 'r']
  else if c = '\t' then ['\\', 't']
  else if c.toNat = 8 then ['\\', 'b']
  else if c.toNat = 12 then ['\\', 'f']
  else if c.toNat < 32 then uEscape c.toNat
  else if c.toNat < 127 then [c]
  else if c.toNat < 65536 then uEscape c.toNat
  else
    uEscape (55296 + (c.toNat - 65536) / 1024) ++ uEscape (56320 + (c.toNat - 65536) % 1024)

/-- A JSON string literal for `s`. -/
def jsonStr (s : String) : String :=
  String.mk ('\"' :: (s.data.map jsonEscapeChar).flatten ++ ['\"'])

/-- A JSON array of string literals, with the compact item separator. -/
def jsonStrList (l : List String) : String :=
  "[" ++ String.intercalate "," (l.map jsonStr) ++ "]"

/-- `json.dumps(search_params, separators=(',', ':'))` for the parameter dict
built by `build_search_url`: keys in insertion order `searchTerm, locations,
conditions, sort, newerThan, olderThan, ended`. -/
def serializeSearchParams (term : String) (locations conditions : List String)
    (newerThan olderThan : String) : String :=
  "\x7b\"searchTerm\":" ++ jsonStr term ++
  ",\"locations\":" ++ jsonStrList locations ++
  ",\"conditions\":" ++ jsonStrList conditions ++
  ",\"sort\":\"DATE_ASC\",\"newerThan\":" ++ jsonStr newerThan ++
  ",\"olderThan\":" ++ jsonStr olderThan ++
  ",\"ended\":false\x7d"

/-- UTF-8 encoding of one character as byte values. -/
def utf8EncodeChar (c : Char) : List Nat :=
  let n := c.toNat
  if n < 128 then [n]
  else if n < 2048 then [192 + n / 64, 128 + n % 64]
  else if n < 65536 then [224 + n / 4096, 128 + n / 64 % 64, 128 + n % 64]
  else [240 + n / 262144, 128 + n / 4096 % 64, 128 + n / 64 % 64, 128 + n % 64]

/-- `str.encode()`: UTF-8 bytes of a string. -/
def utf8Encode (s : String) : List Nat := (s.data.map utf8EncodeChar).flatten

/-- The standard base64 alphabet. -/
def b64Char (n : Nat) : Char :=
  "ABCDEFGHIJKLMNOPQRSTUVWXYZabcdefghijklmnopqrstuvwxyz0123456789+/".data.getD n 'A'

/-- `base64.b64encode` over byte values, with `=` padding. -/
def base64Encode : List Nat → String
  | [] => ""
  | [b1] => String.mk [b64Char (b1 / 4), b64Char (b1 % 4 * 16)] ++ "=="
  | [b1, b2] =>
    String.mk [b64Char (b1 / 4), b64Char (b1 % 4 * 16 + b2 / 16), b64Char (b2 % 16 * 4)] ++ "="
  | b1 :: b2 :: b3 :: rest =>
    String.mk [b64Char (b1 / 4), b64Char (b1 % 4 * 16 + b2 / 16),
               b64Char (b2 % 16 * 4 + b3 / 64), b64Char (b3 % 64)] ++ base64Encode rest

/-- `BidFTAScraper.build_search_url`, parametrized by the computed date
window strings and the configured lists (the source obtains the window from
`get_week_date_range()` on the current wall clock and the lists from the
config module). -/
def build_search_url (search_term newerThan olderThan : String)
    (locations conditions : List String) : String :=
  let json_str := serializeSearchParams search_term locations conditions newerThan olderThan
  let encoded := base64Encode (utf8Encode json_str)
  "https://www.bidft.auction" ++ "/archive?searchSettings=" ++ encoded

/-! ### Digest grouping and sorting (email_sender.py lines 41-85) -/

/-- `parse_end_time` inside `EmailSender.sort_auctions_by_end_time`: the
priority key computed from the lower-cased end-time string by substring
tests in a fixed order. -/
def parse_end_time (a : AuctionRecord) : Nat :=
  let e := lowerStr a.endTime
  if pyIn "today" e then 0
  else if pyIn "tomorrow" e then 1
  else if pyIn "sunday" e then 2
  else if pyIn "monday" e then 3
  else if pyIn "tuesday" e then 4
  else if pyIn "wednesday" e then 5
  else if pyIn "thursday" e then 6
  else if pyIn "friday" e then 7
  else if pyIn "saturday" e then 8
  else 9

/-- The comparison used to model Python `sorted(auctions, key=parse_end_time)`. -/
def endTimeLe (a b : AuctionRecord) : Bool := parse_end_time a ≤ parse_end_time b

/-- `EmailSender.sort_auctions_by_end_time`: a stable sort by the priority
key (Python `sorted` is a stable mergesort). -/
def sort_auctions_by_end_time (l : List AuctionRecord) : List AuctionRecord :=
  l.mergeSort endTimeLe

/-- Appending a record to its group in the insertion-ordered association list
that models the Python dict of `group_auctions_by_search_term`. -/
def insertGroup : List (String × List AuctionRecord) → String → AuctionRecord →
    List (String × List AuctionRecord)
  | [], k, a => [(k, [a])]
  | (k', g) :: rest, k, a =>
    if k' = k then (k', g ++ [a]) :: rest else (k', g) :: insertGroup rest k a

/-- `EmailSender.group_auctions_by_search_term`: group records by their
`search_term` in first-appearance key order, then sort each group by the
end-time priority. -/
def group_auctions_by_search_term (l : List AuctionRecord) :
    List (String × List AuctionRecord) :=
  let grouped := l.foldl (fun acc a => insertGroup acc a.searchTerm a) []
  grouped.map (fun p => (p.1, sort_auctions_by_end_time p.2))

/-! ### Sample data used by witnesses and counterexamples -/

/-- An empty cell, used to pad concrete example rows. -/
def emptyCell : Cell := { text := "", anchors := [], clickables := [], imgSrc := "" }

/-- A cell holding only text. -/
def plainCell (s : String) : Cell :=
  { text := s, anchors := [], clickables := [], imgSrc := "" }

/-- A sample record matching the configured criteria (upper-case location to
exercise the case-insensitive match). -/
def sampleRecord : AuctionRecord :=
  { title := "Cat Tower", url := "https://www.bidft.auction/item/55",
    currentBid := "$12.00", endTime := "Sunday 5PM",
    location := "CINCINNATI - SCHOOL ROAD", condition := "Brand New",
    imageUrl := "", searchTerm := "cat" }

/-! ### Specification-side definitions, example rows and records used by
the theorems, witnesses and counterexamples below -/

/-- A record with both keys blank: empty url and whitespace-only title. -/
def blankRecord : AuctionRecord :=
  { title := "   ", url := "", currentBid := "", endTime := "", location := "",
    condition := "", imageUrl := "", searchTerm := "cat" }

/-- Modelled from the spec (section 4.5) and the C3 claim wording, amended by
the blank-record behaviour: the keep decision for a record given the records
already processed.  Kept are records with a fresh non-empty url, and url-less
records with a fresh non-blank normalized title (compared only against
earlier url-less records, which are the only ones whose titles enter
`seen_titles`); records with empty url and blank normalized title are always
dropped. -/
def dedupeKeep (pre : List AuctionRecord) (a : AuctionRecord) : Bool :=
  if a.url ≠ "" then pre.all fun b => b.url ≠ a.url
  else if normTitle a ≠ "" then
    pre.all fun b => ¬ (b.url = "" ∧ normTitle b = normTitle a)
  else false

/-- The order-preserving filter induced by `dedupeKeep`, carrying the list of
already-processed records. -/
def dedupeSpecGo : List AuctionRecord → List AuctionRecord → List AuctionRecord
  | _, [] => []
  | pre, a :: rest =>
    if dedupeKeep pre a then a :: dedupeSpecGo (pre ++ [a]) rest
    else dedupeSpecGo (pre ++ [a]) rest

/-- The specification-level deduplication: keep exactly the records whose key
is fresh at their position, in input order. -/
def dedupeSpec (l : List AuctionRecord) : List AuctionRecord := dedupeSpecGo [] l

/-- First group associated with a key in the insertion-ordered association
list (the Python dict lookup `grouped[search_term]`). -/
def lookupGroup : List (String × List AuctionRecord) → String → List AuctionRecord
  | [], _ => []
  | (k', g) :: rest, k => if k' = k then g else lookupGroup rest k

/-- The keys of the association list, in insertion order. -/
def groupKeys (acc : List (String × List AuctionRecord)) : List String :=
  acc.map Prod.fst

/-- Modelled from the C1 claim wording, for comparison with the code-derived
chains: strategy 1 counts as successful only when it yields something (a
non-empty title or URL candidate); strategy 3 fires whenever no URL
candidate was established by strategies 1-2; strategy 4 fires whenever no
title was established by strategies 1-3. -/
def titleUrlClaimed (row : Row) (c1 : Cell) : String × String :=
  let s1 : String × String :=
    match c1.anchors with
    | link :: _ => (strip link.text, link.href)
    | [] => ("", "")
  let s12 : String × String :=
    if s1 ≠ ("", "") then s1
    else
      match c1.clickables with
      | elem :: _ => (strip c1.text, firstTruthy elem)
      | [] => ("", "")
  let s123 : String × String :=
    if s12.2 = "" then strategy3 row.rowAnchors c1.text s12.1 else s12
  applyS4 s123 c1.text

/-- The description cell of the C1 counterexample row: an anchor wrapping no
text (for example an image link) with no href, next to non-empty cell text. -/
def cexCell1 : Cell :=
  { text := "Cat Tower", anchors := [{ text := " ", href := "" }],
    clickables := [], imgSrc := "" }

/-- The C1 counterexample row: the description cell above plus an
item-details link elsewhere in the row. -/
def cexRow : Row :=
  { cells := [emptyCell, cexCell1, emptyCell, plainCell "Brand New",
      plainCell "Cincinnati - School Road", plainCell "Sunday 5PM", plainCell "$12.00"],
    rowAnchors := [{ text := "Cat Tower", href := "https://www.bidft.auction/itemDetails/55" }] }

/-- A strategy-1 cell: a direct anchor in the description cell. -/
def s1Cell : Cell :=
  { text := "ignored", anchors := [{ text := " Cat Tower ", href := "/item/1" }],
    clickables := [], imgSrc := "" }

/-- A strategy-2 cell: no anchor, one clickable descendant with a data-href. -/
def s2Cell : Cell :=
  { text := " Bin ", anchors := [],
    clickables := [{ onclick := "", dataHref := "/item/2", dataUrl := "", href := "" }],
    imgSrc := "" }

/-- A strategy-4 cell: no anchor and no clickable, only text. -/
def s4Cell : Cell := plainCell " Rug "

/-- A row with no anchors at all (strategy 3 finds nothing). -/
def bareRow : Row := { cells := [], rowAnchors := [] }

/-- The raw URL candidate that `extract_auction_from_row` hands to URL
normalization: the URL component of the title/URL chain on the description
cell (index 1). -/
def rawCandidate (row : Row) : String :=
  (titleUrlScraper row (row.cells.getD 1 emptyCell)).2

/-- A row whose description cell carries only a clickable descendant whose
data-href is the degenerate candidate `httpx`. -/
def badUrlRow : Row :=
  { cells := [emptyCell,
      { text := "Storage Bin", anchors := [],
        clickables := [{ onclick := "", dataHref := "httpx", dataUrl := "", href := "" }],
        imgSrc := "" },
      emptyCell, plainCell "Brand New", plainCell "Cincinnati - School Road",
      plainCell "Sunday 5PM", plainCell "$5.00"],
    rowAnchors := [] }

/-- The record extracted from the witness row below. -/
def goodUrlRecord : AuctionRecord :=
  { title := "Cat Tower", url := "https://www.bidft.auction/item/55",
    currentBid := "$12.00", endTime := "Sunday 5PM",
    location := "Cincinnati - School Road", condition := "Brand New",
    imageUrl := "", searchTerm := "cat" }

/-- A well-formed row: a direct relative link in the description cell. -/
def goodUrlRow : Row :=
  { cells := [emptyCell,
      { text := "", anchors := [{ text := "Cat Tower", href := "/item/55" }],
        clickables := [], imgSrc := "" },
      emptyCell, plainCell "Brand New", plainCell "Cincinnati - School Road",
      plainCell "Sunday 5PM", plainCell "$12.00"],
    rowAnchors := [] }

/-! ### C8: rows with fewer than 7 cells -/

/-- C8: for every row exposing fewer than 7 cells, both extraction variants
return `none`, regardless of the row's content or the search term; the
7-cell pattern is the only one in which any field is read. -/
theorem extract_row_too_few_cells (row : Row) (t : String) (h : row.cells.length < 7) :
    extract_auction_from_row row t = none ∧
    extract_auction_from_row_comprehensive row t = none := by
  obtain ⟨cells, anch⟩ := row
  rcases cells with _ | ⟨c0, _ | ⟨c1, _ | ⟨c2, _ | ⟨c3, _ | ⟨c4, _ | ⟨c5, _ | ⟨c6, rest⟩⟩⟩⟩⟩⟩⟩
  all_goals first
    | exact ⟨rfl, rfl⟩
    | (exfalso; simp only [List.length_cons] at h; omega)

/-- Witness for `extract_row_too_few_cells` at a concrete 1-cell row. -/
theorem extract_row_too_few_cells_witness :
    extract_auction_from_row ⟨[emptyCell], []⟩ "cat" = none ∧
    extract_auction_from_row_comprehensive ⟨[emptyCell], []⟩ "cat" = none :=
  extract_row_too_few_cells ⟨[emptyCell], []⟩ "cat" (by decide)

/-! ### C5: the weekly date window -/

/-- C5: for every instant (day number) `n`, the default-mode window starts at
the most recent Sunday at or before `n` (it is a Sunday, is at most `n`, and
is at least any Sunday `m ≤ n`), rendered at the fixed 04:00 offset; the
scraper variant ends exactly 7 days later and the debug variant exactly
6 days later, at the same time of day; both windows satisfy
`newerThan <= olderThan` on the rendered timestamps. -/
theorem week_date_range_spec (n m : Int) (hm : weekday m = 6) (hmn : m ≤ n) :
    weekday (week_start n) = 6 ∧ week_start n ≤ n ∧ m ≤ week_start n ∧
    get_week_date_range n = (week_start n, week_start n + 7) ∧
    get_week_date_range_debug n = (week_start n, week_start n + 6) ∧
    renderedTs (week_start n) ≤ renderedTs (week_start n + 7) ∧
    renderedTs (week_start n) ≤ renderedTs (week_start n + 6) := by
  refine ⟨?_, ?_, ?_, rfl, rfl, ?_, ?_⟩ <;>
    simp only [weekday, week_start, days_since_sunday, renderedTs] at hm ⊢ <;> omega

/-- Witness for `week_date_range_spec`: day 5 is Tuesday 1970-01-06 and day 3
is Sunday 1970-01-04. -/
theorem week_date_range_spec_witness :
    weekday (week_start 5) = 6 ∧ week_start 5 ≤ 5 ∧ (3 : Int) ≤ week_start 5 ∧
    get_week_date_range 5 = (week_start 5, week_start 5 + 7) ∧
    get_week_date_range_debug 5 = (week_start 5, week_start 5 + 6) ∧
    renderedTs (week_start 5) ≤ renderedTs (week_start 5 + 7) ∧
    renderedTs (week_start 5) ≤ renderedTs (week_start 5 + 6) :=
  week_date_range_spec 5 3 (by decide) (by decide)

/-! ### C6: determinism and shape of the search URL -/

/-- C6: `build_search_url` is deterministic, and its output is the fixed
`/archive` path under the base origin with the compact, fixed-key-order JSON
serialization of the parameter object base64-encoded into the single
`searchSettings` query parameter. -/
theorem build_search_url_deterministic
    (t1 t2 n1 n2 o1 o2 : String) (l1 l2 c1 c2 : List String)
    (ht : t1 = t2) (hn : n1 = n2) (ho : o1 = o2) (hl : l1 = l2) (hc : c1 = c2) :
    build_search_url t1 n1 o1 l1 c1 = build_search_url t2 n2 o2 l2 c2 ∧
    build_search_url t1 n1 o1 l1 c1 =
      "https://www.bidft.auction/archive?searchSettings=" ++
        base64Encode (utf8Encode (serializeSearchParams t1 l1 c1 n1 o1)) := by
  subst ht hn ho hl hc
  exact ⟨rfl, rfl⟩

/-- Witness for `build_search_url_deterministic` at the sample search. -/
theorem build_search_url_deterministic_witness :
    build_search_url "cat" "2025-09-28T04:00:00.000Z" "2025-10-05T04:00:00.000Z"
        CINCINNATI_LOCATIONS FILTERS_condition =
      build_search_url "cat" "2025-09-28T04:00:00.000Z" "2025-10-05T04:00:00.000Z"
        CINCINNATI_LOCATIONS FILTERS_condition ∧
    build_search_url "cat" "2025-09-28T04:00:00.000Z" "2025-10-05T04:00:00.000Z"
        CINCINNATI_LOCATIONS FILTERS_condition =
      "https://www.bidft.auction/archive?searchSettings=" ++
        base64Encode (utf8Encode (serializeSearchParams "cat" CINCINNATI_LOCATIONS
          FILTERS_condition "2025-09-28T04:00:00.000Z" "2025-10-05T04:00:00.000Z")) :=
  build_search_url_deterministic _ _ _ _ _ _ _ _ _ _ rfl rfl rfl rfl rfl

/-! ### C4: the criteria filter -/

/-- Characterization of `meets_criteria_with` as a conjunction of
non-emptiness and existential substring matches. -/
lemma meets_criteria_with_iff (locs conds : List String) (a : AuctionRecord) :
    meets_criteria_with locs conds a = true ↔
      a.title ≠ "" ∧ a.location ≠ "" ∧
      (∃ c ∈ locs, pyIn (lowerStr c) (lowerStr a.location) = true) ∧
      (∃ c ∈ conds, pyIn (lowerStr c) (lowerStr a.condition) = true) := by
  unfold meets_criteria_with
  constructor
  · intro h
    by_cases h1 : a.title = "" ∨ a.location = ""
    · rw [if_pos h1] at h; simp at h
    · rw [if_neg h1] at h
      push_neg at h1
      by_cases h2 : (locs.any fun c => pyIn (lowerStr c) (lowerStr a.location)) = true
      · rw [if_neg (not_not_intro h2)] at h
        by_cases h3 : (conds.any fun c => pyIn (lowerStr c) (lowerStr a.condition)) = true
        · exact ⟨h1.1, h1.2, by simpa [List.any_eq_true] using h2,
            by simpa [List.any_eq_true] using h3⟩
        · rw [if_pos h3] at h; simp at h
      · rw [if_pos h2] at h; simp at h
  · rintro ⟨ht, hl, ⟨cl, hclm, hclp⟩, ⟨cc, hccm, hccp⟩⟩
    rw [if_neg (by tauto)]
    rw [if_neg (not_not_intro (by rw [List.any_eq_true]; exact ⟨cl, hclm, hclp⟩))]
    rw [if_neg (not_not_intro (by rw [List.any_eq_true]; exact ⟨cc, hccm, hccp⟩))]

/-- C4: `meets_criteria` holds exactly when title and location are non-empty
and some configured location and condition, lower-cased, occur as substrings
of the lower-cased record fields; the result is invariant under permuting
either allow-list (order does not matter). -/
theorem meets_criteria_spec (a : AuctionRecord) (locs conds locs2 conds2 : List String)
    (hl : locs.Perm locs2) (hc : conds.Perm conds2) :
    (meets_criteria_with locs conds a = true ↔
      a.title ≠ "" ∧ a.location ≠ "" ∧
      (∃ c ∈ locs, pyIn (lowerStr c) (lowerStr a.location) = true) ∧
      (∃ c ∈ conds, pyIn (lowerStr c) (lowerStr a.condition) = true)) ∧
    meets_criteria_with locs conds a = meets_criteria_with locs2 conds2 a := by
  refine ⟨meets_criteria_with_iff locs conds a, ?_⟩
  rw [Bool.eq_iff_iff, meets_criteria_with_iff, meets_criteria_with_iff]
  constructor
  · rintro ⟨h1, h2, ⟨c, hcm, hcp⟩, ⟨d, hdm, hdp⟩⟩
    exact ⟨h1, h2, ⟨c, hl.mem_iff.mp hcm, hcp⟩, ⟨d, hc.mem_iff.mp hdm, hdp⟩⟩
  · rintro ⟨h1, h2, ⟨c, hcm, hcp⟩, ⟨d, hdm, hdp⟩⟩
    exact ⟨h1, h2, ⟨c, hl.mem_iff.mpr hcm, hcp⟩, ⟨d, hc.mem_iff.mpr hdm, hdp⟩⟩

/-- Witness for `meets_criteria_spec`: the sample record against the
configured allow-lists and their reversals. -/
theorem meets_criteria_spec_witness :
    (meets_criteria_with CINCINNATI_LOCATIONS FILTERS_condition sampleRecord = true ↔
      sampleRecord.title ≠ "" ∧ sampleRecord.location ≠ "" ∧
      (∃ c ∈ CINCINNATI_LOCATIONS, pyIn (lowerStr c) (lowerStr sampleRecord.location) = true) ∧
      (∃ c ∈ FILTERS_condition, pyIn (lowerStr c) (lowerStr sampleRecord.condition) = true)) ∧
    meets_criteria_with CINCINNATI_LOCATIONS FILTERS_condition sampleRecord =
      meets_criteria_with CINCINNATI_LOCATIONS.reverse FILTERS_condition.reverse sampleRecord :=
  meets_criteria_spec sampleRecord CINCINNATI_LOCATIONS FILTERS_condition
    CINCINNATI_LOCATIONS.reverse FILTERS_condition.reverse
    (List.reverse_perm CINCINNATI_LOCATIONS).symm
    (List.reverse_perm FILTERS_condition).symm

/-! ### C3, C9, C10: deduplication -/

lemma invU_snoc {seenU : List String} {pre : List AuctionRecord} {a : AuctionRecord}
    (hU : ∀ u, u ∈ seenU ↔ (u ≠ "" ∧ ∃ b ∈ pre, b.url = u))
    (ha : a.url = "" ∨ a.url ∈ seenU) (u : String) :
    u ∈ seenU ↔ (u ≠ "" ∧ ∃ b ∈ pre ++ [a], b.url = u) := by
  rw [hU u]
  simp only [List.mem_append, List.mem_cons, List.not_mem_nil, or_false]
  constructor
  · rintro ⟨h1, b, hb, h2⟩; exact ⟨h1, b, Or.inl hb, h2⟩
  · rintro ⟨h1, b, hb | hb, h2⟩
    · exact ⟨h1, b, hb, h2⟩
    · subst hb
      rcases ha with ha | ha
      · rw [ha] at h2; exact absurd h2.symm h1
      · subst h2; exact ⟨h1, ((hU b.url).mp ha).2⟩

lemma invT_snoc {seenT : List String} {pre : List AuctionRecord} {a : AuctionRecord}
    (hT : ∀ s, s ∈ seenT ↔ (s ≠ "" ∧ ∃ b ∈ pre, b.url = "" ∧ normTitle b = s))
    (ha : a.url ≠ "" ∨ normTitle a = "" ∨ normTitle a ∈ seenT) (s : String) :
    s ∈ seenT ↔ (s ≠ "" ∧ ∃ b ∈ pre ++ [a], b.url = "" ∧ normTitle b = s) := by
  rw [hT s]
  simp only [List.mem_append, List.mem_cons, List.not_mem_nil, or_false]
  constructor
  · rintro ⟨h1, b, hb, h2⟩; exact ⟨h1, b, Or.inl hb, h2⟩
  · rintro ⟨h1, b, hb | hb, h2⟩
    · exact ⟨h1, b, hb, h2⟩
    · subst hb
      rcases ha with ha | ha | ha
      · exact absurd h2.1 ha
      · rw [h2.2] at ha; exact absurd ha h1
      · have hmem := (hT (normTitle b)).mp ha
        rw [h2.2] at hmem
        exact ⟨h1, hmem.2⟩

lemma invU_cons {seenU : List String} {pre : List AuctionRecord} {a : AuctionRecord}
    (hU : ∀ u, u ∈ seenU ↔ (u ≠ "" ∧ ∃ b ∈ pre, b.url = u))
    (ha : a.url ≠ "") (u : String) :
    u ∈ a.url :: seenU ↔ (u ≠ "" ∧ ∃ b ∈ pre ++ [a], b.url = u) := by
  simp only [List.mem_cons, List.mem_append, List.not_mem_nil, or_false]
  constructor
  · rintro (h | h)
    · subst h; exact ⟨ha, a, Or.inr rfl, rfl⟩
    · obtain ⟨h1, b, hb, h2⟩ := (hU u).mp h
      exact ⟨h1, b, Or.inl hb, h2⟩
  · rintro ⟨h1, b, hb | hb, h2⟩
    · exact Or.inr ((hU u).mpr ⟨h1, b, hb, h2⟩)
    · subst hb; exact Or.inl h2.symm

lemma invT_cons {seenT : List String} {pre : List AuctionRecord} {a : AuctionRecord}
    (hT : ∀ s, s ∈ seenT ↔ (s ≠ "" ∧ ∃ b ∈ pre, b.url = "" ∧ normTitle b = s))
    (ha : a.url = "") (ht : normTitle a ≠ "") (s : String) :
    s ∈ normTitle a :: seenT ↔ (s ≠ "" ∧ ∃ b ∈ pre ++ [a], b.url = "" ∧ normTitle b = s) := by
  simp only [List.mem_cons, List.mem_append, List.not_mem_nil, or_false]
  constructor
  · rintro (h | h)
    · subst h; exact ⟨ht, a, Or.inr rfl, ha, rfl⟩
    · obtain ⟨h1, b, hb, h2⟩ := (hT s).mp h
      exact ⟨h1, b, Or.inl hb, h2⟩
  · rintro ⟨h1, b, hb | hb, h2⟩
    · exact Or.inr ((hT s).mpr ⟨h1, b, hb, h2⟩)
    · subst hb; exact Or.inl h2.2.symm

/-- The dedup loop equals the specification filter whenever the seen-sets
describe exactly the already-processed records. -/
lemma removeDupGo_eq_specGo (l : List AuctionRecord) :
    ∀ (seenU seenT : List String) (pre : List AuctionRecord),
    (∀ u, u ∈ seenU ↔ (u ≠ "" ∧ ∃ b ∈ pre, b.url = u)) →
    (∀ s, s ∈ seenT ↔ (s ≠ "" ∧ ∃ b ∈ pre, b.url = "" ∧ normTitle b = s)) →
    removeDupGo seenU seenT l = dedupeSpecGo pre l := by
  induction l with
  | nil => intro seenU seenT pre hU hT; rfl
  | cons a rest ih =>
    intro seenU seenT pre hU hT
    by_cases hu : a.url = ""
    · have hc1 : ¬ (a.url ≠ "" ∧ a.url ∉ seenU) := fun h => h.1 hu
      by_cases ht : normTitle a = ""
      · have hc2 : ¬ (a.url = "" ∧ normTitle a ≠ "" ∧ normTitle a ∉ seenT) :=
          fun h => h.2.1 ht
        have hk : ¬ dedupeKeep pre a = true := by
          simp [dedupeKeep, hu, ht]
        rw [removeDupGo, if_neg hc1, if_neg hc2, dedupeSpecGo, if_neg hk]
        exact ih _ _ _ (invU_snoc hU (Or.inl hu)) (invT_snoc hT (Or.inr (Or.inl ht)))
      · by_cases hmem : normTitle a ∈ seenT
        · have hc2 : ¬ (a.url = "" ∧ normTitle a ≠ "" ∧ normTitle a ∉ seenT) :=
            fun h => h.2.2 hmem
          obtain ⟨-, b, hb, hb2⟩ := (hT (normTitle a)).mp hmem
          have hk : ¬ dedupeKeep pre a = true := by
            unfold dedupeKeep
            rw [if_neg (not_not_intro hu), if_pos ht]
            simp only [List.all_eq_true, decide_eq_true_eq]
            intro hall
            exact hall b hb ⟨hb2.1, hb2.2⟩
          rw [removeDupGo, if_neg hc1, if_neg hc2, dedupeSpecGo, if_neg hk]
          exact ih _ _ _ (invU_snoc hU (Or.inl hu)) (invT_snoc hT (Or.inr (Or.inr hmem)))
        · have hc2 : a.url = "" ∧ normTitle a ≠ "" ∧ normTitle a ∉ seenT := ⟨hu, ht, hmem⟩
          have hk : dedupeKeep pre a = true := by
            unfold dedupeKeep
            rw [if_neg (not_not_intro hu), if_pos ht]
            simp only [List.all_eq_true, decide_eq_true_eq]
            intro b hb hcontra
            exact hmem ((hT (normTitle a)).mpr ⟨ht, b, hb, hcontra.1, hcontra.2⟩)
          rw [removeDupGo, if_neg hc1, if_pos hc2, dedupeSpecGo, if_pos hk]
          congr 1
          exact ih _ _ _ (invU_snoc hU (Or.inl hu)) (invT_cons hT hu ht)
    · by_cases hmem : a.url ∈ seenU
      · have hc1 : ¬ (a.url ≠ "" ∧ a.url ∉ seenU) := fun h => h.2 hmem
        have hc2 : ¬ (a.url = "" ∧ normTitle a ≠ "" ∧ normTitle a ∉ seenT) :=
          fun h => hu h.1
        obtain ⟨-, b, hb, hb2⟩ := (hU a.url).mp hmem
        have hk : ¬ dedupeKeep pre a = true := by
          unfold dedupeKeep
          rw [if_pos hu]
          simp only [List.all_eq_true, decide_eq_true_eq]
          intro hall
          exact hall b hb hb2
        rw [removeDupGo, if_neg hc1, if_neg hc2, dedupeSpecGo, if_neg hk]
        exact ih _ _ _ (invU_snoc hU (Or.inr hmem)) (invT_snoc hT (Or.inl hu))
      · have hc1 : a.url ≠ "" ∧ a.url ∉ seenU := ⟨hu, hmem⟩
        have hk : dedupeKeep pre a = true := by
          unfold dedupeKeep
          rw [if_pos hu]
          simp only [List.all_eq_true, decide_eq_true_eq]
          intro b hb heq
          exact hmem ((hU a.url).mpr ⟨hu, b, hb, heq⟩)
        rw [removeDupGo, if_pos hc1, dedupeSpecGo, if_pos hk]
        congr 1
        exact ih _ _ _ (invU_cons hU hu) (invT_snoc hT (Or.inl hu))

/-- C3 counterexample: a first-occurrence record whose url is empty and whose
normalized title is blank has no previously-seen key, yet
`remove_duplicates` drops it, so the claimed first-occurrence-wins
characterization fails at `[blankRecord]`. -/
theorem remove_duplicates_blank_counterexample :
    remove_duplicates [blankRecord] = [] ∧
    blankRecord.url = "" ∧ normTitle blankRecord = "" ∧
    remove_duplicates [blankRecord] ≠ [blankRecord] := by decide

/-- C3 (amended): `remove_duplicates` is the order-preserving,
first-occurrence-wins filter given by `dedupeKeep`: a record is kept exactly
when its url is non-empty and differs from every earlier url, or its url is
empty and its lower-cased trimmed title is non-blank and differs from the
normalized title of every earlier url-less record; records with empty url
and blank normalized title are always dropped. -/
theorem remove_duplicates_eq_dedupeSpec (l : List AuctionRecord) :
    remove_duplicates l = dedupeSpec l :=
  removeDupGo_eq_specGo l [] [] [] (by simp) (by simp)

/-- The dedup loop is idempotent from any seen-set state. -/
lemma removeDupGo_idem (l : List AuctionRecord) :
    ∀ seenU seenT,
      removeDupGo seenU seenT (removeDupGo seenU seenT l) = removeDupGo seenU seenT l := by
  induction l with
  | nil => intro seenU seenT; rfl
  | cons a rest ih =>
    intro seenU seenT
    by_cases h1 : a.url ≠ "" ∧ a.url ∉ seenU
    · have e : removeDupGo seenU seenT (a :: rest) =
          a :: removeDupGo (a.url :: seenU) seenT rest := by
        rw [removeDupGo, if_pos h1]
      rw [e, removeDupGo, if_pos h1, ih]
    · by_cases h2 : a.url = "" ∧ normTitle a ≠ "" ∧ normTitle a ∉ seenT
      · have e : removeDupGo seenU seenT (a :: rest) =
            a :: removeDupGo seenU (normTitle a :: seenT) rest := by
          rw [removeDupGo, if_neg h1, if_pos h2]
        rw [e, removeDupGo, if_neg h1, if_pos h2, ih]
      · have e : removeDupGo seenU seenT (a :: rest) = removeDupGo seenU seenT rest := by
          rw [removeDupGo, if_neg h1, if_neg h2]
        rw [e, ih]

/-- C9: `remove_duplicates` is idempotent. -/
theorem remove_duplicates_idempotent (l : List AuctionRecord) :
    remove_duplicates (remove_duplicates l) = remove_duplicates l :=
  removeDupGo_idem l [] []

/-- Every record surviving the dedup loop has a non-empty url or a non-blank
normalized title. -/
lemma removeDupGo_mem_not_blank (l : List AuctionRecord) :
    ∀ (seenU seenT : List String) (r : AuctionRecord),
      r ∈ removeDupGo seenU seenT l → r.url ≠ "" ∨ normTitle r ≠ "" := by
  induction l with
  | nil => intro _ _ r h; cases h
  | cons a rest ih =>
    intro seenU seenT r h
    by_cases h1 : a.url ≠ "" ∧ a.url ∉ seenU
    · rw [removeDupGo, if_pos h1] at h
      rcases List.mem_cons.mp h with h | h
      · subst h; exact Or.inl h1.1
      · exact ih _ _ r h
    · rw [removeDupGo, if_neg h1] at h
      by_cases h2 : a.url = "" ∧ normTitle a ≠ "" ∧ normTitle a ∉ seenT
      · rw [if_pos h2] at h
        rcases List.mem_cons.mp h with h | h
        · subst h; exact Or.inr h2.2.1
        · exact ih _ _ r h
      · rw [if_neg h2] at h
        exact ih _ _ r h

/-- C10: a record with empty url and blank (empty or whitespace-only,
after lower-casing and trimming) title never appears in the output of
`remove_duplicates`, and prepending such a record to any input — its first
occurrence, with no key seen before — leaves the output unchanged. -/
theorem remove_duplicates_no_blank (l : List AuctionRecord) (r : AuctionRecord)
    (hblank : r.url = "" ∧ normTitle r = "") :
    r ∉ remove_duplicates l ∧ remove_duplicates (r :: l) = remove_duplicates l := by
  constructor
  · intro hmem
    rcases removeDupGo_mem_not_blank l [] [] r hmem with h | h
    · exact h hblank.1
    · exact h hblank.2
  · unfold remove_duplicates
    rw [removeDupGo, if_neg (fun h => h.1 hblank.1), if_neg (fun h => h.2.1 hblank.2)]

/-- Witness for `remove_duplicates_no_blank` at a concrete pair of records. -/
theorem remove_duplicates_no_blank_witness :
    remove_duplicates (blankRecord :: [sampleRecord]) = remove_duplicates [sampleRecord] :=
  (remove_duplicates_no_blank [sampleRecord] blankRecord (by decide)).2

/-! ### C7: grouping and sorting for the digest -/

lemma lookupGroup_insertGroup (acc : List (String × List AuctionRecord)) (k : String)
    (a : AuctionRecord) (q : String) :
    lookupGroup (insertGroup acc k a) q =
      if q = k then lookupGroup acc k ++ [a] else lookupGroup acc q := by
  induction acc with
  | nil =>
    by_cases h : q = k
    · subst h; simp [insertGroup, lookupGroup]
    · simp [insertGroup, lookupGroup, h, Ne.symm h]
  | cons p rest ih =>
    obtain ⟨k0, g0⟩ := p
    by_cases hk : k0 = k
    · subst hk
      by_cases hq : q = k0
      · subst hq; simp [insertGroup, lookupGroup]
      · simp [insertGroup, lookupGroup, hq, Ne.symm hq]
    · by_cases hq : k0 = q
      · subst hq
        simp [insertGroup, lookupGroup, hk, fun h : k0 = k => hk h]
      · simp [insertGroup, lookupGroup, hk, hq, ih]

lemma lookupGroup_foldl (l : List AuctionRecord) :
    ∀ (acc : List (String × List AuctionRecord)) (k : String),
    lookupGroup (l.foldl (fun acc a => insertGroup acc a.searchTerm a) acc) k =
      lookupGroup acc k ++ l.filter (fun a => a.searchTerm = k) := by
  induction l with
  | nil => intro acc k; simp
  | cons a rest ih =>
    intro acc k
    rw [List.foldl_cons, ih, lookupGroup_insertGroup]
    by_cases h : k = a.searchTerm
    · subst h
      simp [List.filter_cons, List.append_assoc]
    · rw [if_neg h, List.filter_cons,
        if_neg (by simp only [decide_eq_true_eq]; exact fun hh => h hh.symm)]

lemma groupKeys_insertGroup (acc : List (String × List AuctionRecord)) (k : String)
    (a : AuctionRecord) :
    groupKeys (insertGroup acc k a) =
      if k ∈ groupKeys acc then groupKeys acc else groupKeys acc ++ [k] := by
  induction acc with
  | nil => simp [insertGroup, groupKeys]
  | cons p rest ih =>
    obtain ⟨k0, g0⟩ := p
    by_cases hk : k0 = k
    · subst hk; simp [insertGroup, groupKeys]
    · rw [show insertGroup ((k0, g0) :: rest) k a = (k0, g0) :: insertGroup rest k a from by
        rw [insertGroup, if_neg hk]]
      simp only [groupKeys, List.map_cons, List.mem_cons] at ih ⊢
      rw [ih]
      by_cases hm : k ∈ List.map Prod.fst rest
      · rw [if_pos hm, if_pos (Or.inr hm)]
      · rw [if_neg hm, if_neg (by rintro (hc | hc); exacts [hk hc.symm, hm hc])]
        simp

lemma nodup_groupKeys_insertGroup (acc : List (String × List AuctionRecord)) (k : String)
    (a : AuctionRecord) (h : (groupKeys acc).Nodup) :
    (groupKeys (insertGroup acc k a)).Nodup := by
  rw [groupKeys_insertGroup]
  by_cases hm : k ∈ groupKeys acc
  · rw [if_pos hm]; exact h
  · rw [if_neg hm]
    simp [List.nodup_append, h, hm]

lemma nodup_groupKeys_foldl (l : List AuctionRecord) :
    ∀ acc, (groupKeys acc).Nodup →
    (groupKeys (l.foldl (fun acc a => insertGroup acc a.searchTerm a) acc)).Nodup := by
  induction l with
  | nil => intro acc h; exact h
  | cons a rest ih =>
    intro acc h
    exact ih _ (nodup_groupKeys_insertGroup acc a.searchTerm a h)

lemma lookupGroup_of_mem (acc : List (String × List AuctionRecord)) :
    ∀ (k : String) (g : List AuctionRecord), (groupKeys acc).Nodup → (k, g) ∈ acc →
    lookupGroup acc k = g := by
  induction acc with
  | nil => intro k g _ hm; cases hm
  | cons p rest ih =>
    intro k g hnd hm
    obtain ⟨k0, g0⟩ := p
    have hnd2 : (groupKeys rest).Nodup ∧ k0 ∉ groupKeys rest := by
      rw [groupKeys, List.map_cons, List.nodup_cons] at hnd
      exact ⟨hnd.2, hnd.1⟩
    rcases List.mem_cons.mp hm with he | hm2
    · injection he with h1 h2
      subst h1; subst h2
      simp [lookupGroup]
    · have hk : k0 ≠ k := by
        intro he
        subst he
        exact hnd2.2 (List.mem_map.mpr ⟨(k0, g), hm2, rfl⟩)
      rw [lookupGroup, if_neg hk]
      exact ih k g hnd2.1 hm2

/-- C7: `group_auctions_by_search_term` groups records by their search term
and sorts each group in nondecreasing order of the end-time priority key
`parse_end_time` (today 0, tomorrow 1, Sunday..Saturday 2..8, else 9): every
entry of the output holds, for its key, a permutation of exactly the input
records carrying that search term, sorted by nondecreasing priority. -/
theorem group_auctions_spec (l : List AuctionRecord) (k : String) (g : List AuctionRecord)
    (h : (k, g) ∈ group_auctions_by_search_term l) :
    (∀ a ∈ g, a.searchTerm = k) ∧
    List.Pairwise (fun a b => parse_end_time a ≤ parse_end_time b) g ∧
    g.Perm (l.filter (fun a => a.searchTerm = k)) := by
  unfold group_auctions_by_search_term at h
  obtain ⟨⟨k2, g0⟩, hmem, heq⟩ := List.mem_map.mp h
  obtain ⟨hk, hg⟩ := Prod.mk.injEq .. ▸ heq
  subst hk
  have hnd : (groupKeys (l.foldl (fun acc a => insertGroup acc a.searchTerm a) [])).Nodup :=
    nodup_groupKeys_foldl l [] (by simp [groupKeys])
  have hg0 : g0 = l.filter (fun a => a.searchTerm = k2) := by
    have hlk := lookupGroup_of_mem _ k2 g0 hnd hmem
    rw [lookupGroup_foldl] at hlk
    simpa [lookupGroup] using hlk.symm
  have hperm : g.Perm g0 := by
    rw [← hg]
    exact List.mergeSort_perm g0 endTimeLe
  have htrans : ∀ a b c : AuctionRecord,
      endTimeLe a b → endTimeLe b c → endTimeLe a c := by
    intro a b c hab hbc
    simp only [endTimeLe, decide_eq_true_eq] at *
    omega
  have htotal : ∀ a b : AuctionRecord, endTimeLe a b || endTimeLe b a := by
    intro a b
    simp only [endTimeLe, Bool.or_eq_true, decide_eq_true_eq]
    omega
  refine ⟨?_, ?_, hg0 ▸ hperm⟩
  · intro a ha
    have : a ∈ l.filter (fun x => x.searchTerm = k2) :=
      (hg0 ▸ hperm).mem_iff.mp ha
    exact of_decide_eq_true (List.mem_filter.mp this).2
  · rw [← hg]
    exact (List.sorted_mergeSort htrans htotal g0).imp
      (fun hab => by simpa [endTimeLe] using hab)

/-- Witness for `group_auctions_spec` on a singleton input. -/
theorem group_auctions_spec_witness :
    List.Pairwise (fun a b => parse_end_time a ≤ parse_end_time b) [sampleRecord] ∧
    List.Perm [sampleRecord]
      (List.filter (fun a => a.searchTerm = "cat") [sampleRecord]) := by
  have h : ("cat", [sampleRecord]) ∈ group_auctions_by_search_term [sampleRecord] := by
    unfold group_auctions_by_search_term sort_auctions_by_end_time
    simp [insertGroup, sampleRecord]
  exact (group_auctions_spec [sampleRecord] "cat" [sampleRecord] h).2

/-! ### C1: the four-tier title/URL fallback chain -/

/-- C1 counterexample: on a row whose description cell holds an anchor with
blank text and no href, both extraction variants stop at strategy 1 and
return an empty title and URL, although the claimed chain would fall through
to strategies 2-4 and produce the cell text as title and the row-level
item-details link as URL. -/
theorem titleUrl_chain_counterexample :
    titleUrlScraper cexRow cexCell1 = ("", "") ∧
    titleUrlDebug cexRow cexCell1 = ("", "") ∧
    titleUrlClaimed cexRow cexCell1 =
      ("Cat Tower", "https://www.bidft.auction/itemDetails/55") ∧
    titleUrlScraper cexRow cexCell1 ≠ titleUrlClaimed cexRow cexCell1 ∧
    (extract_auction_from_row cexRow "cat").map (fun r => (r.title, r.url)) =
      some ("", "") := by decide

/-- C1 (amended): the fallback chain with its actual triggers.  Strategy 1
wins on the mere presence of an anchor in the description cell, even one
yielding neither title nor URL; only when the cell has no anchor do the
later strategies run.  Then strategy 2 wins on the mere presence of a
clickable descendant: in scraper.py strategy 3 is not consulted afterwards
even if all four attributes were empty, while in comprehensive_debug.py it
is consulted exactly when the attribute chain produced no URL.  Strategy 3
runs when no anchor and no clickable exist, and strategy 4 tops up an empty
title only in the no-anchor cases. -/
theorem titleUrl_fallback_chain (row : Row) (c1 : Cell) :
    (∀ link rest, c1.anchors = link :: rest →
      titleUrlScraper row c1 = (strip link.text, link.href) ∧
      titleUrlDebug row c1 = (strip link.text, link.href)) ∧
    (∀ elem rest, c1.anchors = [] → c1.clickables = elem :: rest →
      titleUrlScraper row c1 = (strip c1.text, firstTruthy elem) ∧
      titleUrlDebug row c1 =
        (if firstTruthy elem = "" then
          applyS4 (strategy3 row.rowAnchors c1.text (strip c1.text)) c1.text
         else (strip c1.text, firstTruthy elem))) ∧
    (c1.anchors = [] → c1.clickables = [] →
      titleUrlScraper row c1 = applyS4 (strategy3 row.rowAnchors c1.text "") c1.text ∧
      titleUrlDebug row c1 = applyS4 (strategy3 row.rowAnchors c1.text "") c1.text) := by
  refine ⟨?_, ?_, ?_⟩
  · intro link rest hc
    constructor <;> simp [titleUrlScraper, titleUrlDebug, hc]
  · intro elem rest hc1 hc2
    constructor
    · simp [titleUrlScraper, hc1, hc2, applyS4]
    · by_cases he : firstTruthy elem = "" <;>
        simp [titleUrlDebug, hc1, hc2, applyS4, he]
  · intro hc1 hc2
    constructor <;> simp [titleUrlScraper, titleUrlDebug, hc1, hc2]

/-- Witness for `titleUrl_fallback_chain`: each conjunct applied at a
concrete cell. -/
theorem titleUrl_fallback_chain_witness :
    titleUrlScraper bareRow s1Cell = ("Cat Tower", "/item/1") ∧
    titleUrlScraper bareRow s2Cell = ("Bin", "/item/2") ∧
    titleUrlScraper bareRow s4Cell = ("Rug", "") := by
  refine ⟨?_, ?_, ?_⟩
  · exact (((titleUrl_fallback_chain bareRow s1Cell).1
      ⟨" Cat Tower ", "/item/1"⟩ [] rfl).1).trans (by decide)
  · exact (((titleUrl_fallback_chain bareRow s2Cell).2.1
      ⟨"", "/item/2", "", ""⟩ [] rfl rfl).1).trans (by decide)
  · exact (((titleUrl_fallback_chain bareRow s4Cell).2.2 rfl rfl).1).trans (by decide)

/-! ### C2: URL absoluteness -/

/-- C2 counterexample: a raw candidate that starts with `http` without being
an absolute scheme (here `httpx`) passes the `startswith('http')` test and is
kept verbatim, so the extracted record has a non-empty url that starts with
neither `http://` nor `https://`. -/
theorem extract_url_absolute_counterexample :
    (extract_auction_from_row badUrlRow "cat").map AuctionRecord.url = some "httpx" ∧
    sStarts "httpx" "http://" = false ∧
    sStarts "httpx" "https://" = false ∧
    ("httpx" : String) ≠ "" := by decide

lemma sStarts_append (a b p : String) (h : sStarts a p = true) :
    sStarts (a ++ b) p = true := by
  unfold sStarts at h ⊢
  rw [decide_eq_true_eq] at h ⊢
  have hlen : p.data.length ≤ a.data.length := by
    have := congrArg List.length h
    simp only [List.length_take] at this
    omega
  rw [String.data_append, List.take_append_of_le_length hlen, h]

/-- URL normalization yields an absolute HTTP(S) URL whenever the cleaned raw
candidate either does not start with `http` at all or starts with a full
scheme prefix. -/
lemma normalizeUrl_absolute (u : String)
    (hshape : sStarts (jsClean u) "http" = false ∨ sStarts (jsClean u) "http://" = true ∨
      sStarts (jsClean u) "https://" = true)
    (hne : normalizeUrl u ≠ "") :
    sStarts (normalizeUrl u) "http://" = true ∨
    sStarts (normalizeUrl u) "https://" = true := by
  unfold normalizeUrl at hne ⊢
  by_cases hu : u = ""
  · rw [if_pos hu] at hne; exact absurd rfl hne
  · rw [if_neg hu] at hne ⊢
    unfold makeAbsolute at hne ⊢
    by_cases h1 : jsClean u ≠ "" ∧ ¬ sStarts (jsClean u) "http" = true
    · rw [if_pos h1]
      by_cases h2 : sStarts (jsClean u) "/" = true
      · rw [if_pos h2]
        exact Or.inr (sStarts_append "https://www.bidft.auction" _ "https://" (by decide))
      · rw [if_neg h2]
        by_cases h3 : sStarts (jsClean u) "www.bidfta.com" = true
        · rw [if_pos h3]
          exact Or.inr (sStarts_append "https://" _ "https://" (by decide))
        · rw [if_neg h3]
          exact Or.inr (sStarts_append "https://www.bidft.auction/" _ "https://" (by decide))
    · rw [if_neg h1] at hne ⊢
      rcases not_and_or.mp h1 with h | h
      · push_neg at h
        exact absurd h hne
      · rw [not_not] at h
        rcases hshape with hs | hs | hs
        · rw [h] at hs; cases hs
        · exact Or.inl hs
        · exact Or.inr hs

/-- C2 (amended): if `extract_auction_from_row` returns a record with a
non-empty url, that url starts with `http://` or `https://`, provided the
raw candidate after inline-script cleaning does not start with `http` while
lacking a full scheme prefix (such a candidate, e.g. `httpx`, is passed
through verbatim by the `startswith('http')` guard). -/
theorem extract_url_absolute (row : Row) (t : String) (r : AuctionRecord)
    (hr : extract_auction_from_row row t = some r)
    (hshape : sStarts (jsClean (rawCandidate row)) "http" = false ∨
      sStarts (jsClean (rawCandidate row)) "http://" = true ∨
      sStarts (jsClean (rawCandidate row)) "https://" = true)
    (hne : r.url ≠ "") :
    sStarts r.url "http://" = true ∨ sStarts r.url "https://" = true := by
  obtain ⟨cells, anch⟩ := row
  rcases cells with _ | ⟨c0, _ | ⟨c1, _ | ⟨c2, _ | ⟨c3, _ | ⟨c4, _ | ⟨c5, _ | ⟨c6, rest⟩⟩⟩⟩⟩⟩⟩
  case nil => exact Option.noConfusion hr
  case cons.nil => exact Option.noConfusion hr
  case cons.cons.nil => exact Option.noConfusion hr
  case cons.cons.cons.nil => exact Option.noConfusion hr
  case cons.cons.cons.cons.nil => exact Option.noConfusion hr
  case cons.cons.cons.cons.cons.nil => exact Option.noConfusion hr
  case cons.cons.cons.cons.cons.cons.nil => exact Option.noConfusion hr
  case cons.cons.cons.cons.cons.cons.cons =>
    simp only [extract_auction_from_row, Option.some.injEq] at hr
    subst hr
    exact normalizeUrl_absolute _ hshape hne

/-- Witness for `extract_url_absolute` at the relative-link row. -/
theorem extract_url_absolute_witness :
    sStarts goodUrlRecord.url "http://" = true ∨
    sStarts goodUrlRecord.url "https://" = true :=
  extract_url_absolute goodUrlRow "cat" goodUrlRecord (by decide) (by decide) (by decide)

end AuctionScraper
